import Mathlib

/-!
# Verification of the connex puzzle-grid engine

Shallow embedding of the `connex` crate (7sDream/connex): the tile data model
(`src/connex/src/block.rs`), the grid (`src/connex/src/world.rs`), the command
reducer (`src/connex/src/game.rs`), and the older inline library version
(`src/connex/src/lib.rs`, namespace `Lib` below).

Rust machine integers (`usize`, `NonZeroUsize`) are modelled as `Nat` with
explicit bound checks where the source checks them (`USIZE_MAX`).  A Rust
function that can panic is modelled as returning `Option` (or a dedicated
result type), `none` standing for a panic.
-/

/-- `usize::MAX` on a 64-bit target (the source uses `checked_mul` against it). -/
def USIZE_MAX : Nat := 2 ^ 64 - 1

/-- `Direction` from `block.rs`. -/
inductive Direction where
  | Up
  | Right
  | Down
  | Left
deriving DecidableEq, Repr, Fintype

/-- `Direction::turn` (clockwise step) from `block.rs`. -/
def Direction.turn : Direction → Direction
  | .Up => .Right
  | .Right => .Down
  | .Down => .Left
  | .Left => .Up

/-- `Direction::horizontal` from `block.rs`. -/
def Direction.horizontal : Direction → Bool
  | .Left | .Right => true
  | _ => false

/-- `Direction::vertical` from `block.rs`. -/
def Direction.vertical : Direction → Bool
  | .Up | .Down => true
  | _ => false

/-- `Direction::opposite` from `block.rs`. -/
def Direction.opposite : Direction → Direction
  | .Up => .Down
  | .Right => .Left
  | .Down => .Up
  | .Left => .Right

/-- `Block` from `block.rs`: Empty, Endpoint, Through, Turn, Fork, Cross. -/
inductive Block where
  | Empty
  | Endpoint (d : Direction)
  | Through (d : Direction)
  | Turn (d : Direction)
  | Fork (d : Direction)
  | Cross
deriving DecidableEq, Repr, Fintype

/-- `Block::turn` from `block.rs` (rotate the block clockwise). -/
def Block.turn : Block → Block
  | .Empty => .Empty
  | .Endpoint t => .Endpoint t.turn
  | .Through t => .Through t.turn
  | .Turn t => .Turn t.turn
  | .Fork t => .Fork t.turn
  | .Cross => .Cross

/-- Modelled from the spec: `world.rs` and `game.rs` call a `Block::rotate`
method that is absent from the given `block.rs` (which only defines `turn` /
`turn_me`).  The spec says rotate "advances the stored Direction by one
clockwise step for the four orientation-bearing variants and is the identity
for Empty and Cross", which is exactly `Block::turn` from `block.rs`. -/
def Block.rotate (b : Block) : Block := b.turn

/-- `Block::passable` from `block.rs`. -/
def Block.passable : Block → Direction → Bool
  | .Empty, _ => false
  | .Endpoint t, rhs => t == rhs
  | .Through t, rhs => t.horizontal == rhs.horizontal
  | .Turn t, rhs => t == rhs || t.turn == rhs
  | .Fork t, rhs => t != rhs
  | .Cross, _ => true

/-- `Block::fit` from `block.rs`:
`self.passable(side) == other.passable(side.opposite())`. -/
def Block.fit (a : Block) (side : Direction) (other : Block) : Bool :=
  a.passable side == other.passable side.opposite

/-- Discriminant of a `Block` (which variant it is), used to state that
rotation preserves the variant. -/
def Block.kind : Block → Nat
  | .Empty => 0
  | .Endpoint _ => 1
  | .Through _ => 2
  | .Turn _ => 3
  | .Fork _ => 4
  | .Cross => 5

/-- `FromStr for Block` from `block.rs` (the input is a single character). -/
def blockFromChar : Char → Option Block
  | ' ' => some .Empty
  | '^' => some (.Endpoint .Up)
  | '>' => some (.Endpoint .Right)
  | 'v' => some (.Endpoint .Down)
  | '<' => some (.Endpoint .Left)
  | '/' => some (.Through .Up)
  | '-' => some (.Through .Left)
  | '1' => some (.Turn .Up)
  | '7' => some (.Turn .Right)
  | '9' => some (.Turn .Down)
  | '3' => some (.Turn .Left)
  | '8' => some (.Fork .Up)
  | '6' => some (.Fork .Right)
  | '2' => some (.Fork .Down)
  | '4' => some (.Fork .Left)
  | '5' => some .Cross
  | _ => none

/-- `Display for Block` from `block.rs`, verbatim: note that the source maps
`Endpoint(Direction::Right)` to `'^'` (its own doc comment says the Endpoint
characters are the arrows `^`, `>`, `v`, `<`). -/
def blockToChar : Block → Char
  | .Empty => ' '
  | .Endpoint .Up => '^'
  | .Endpoint .Right => '^'
  | .Endpoint .Down => 'v'
  | .Endpoint .Left => '<'
  | .Through .Up | .Through .Down => '/'
  | .Through .Left | .Through .Right => '-'
  | .Turn .Up => '1'
  | .Turn .Right => '7'
  | .Turn .Down => '9'
  | .Turn .Left => '3'
  | .Fork .Up => '8'
  | .Fork .Right => '6'
  | .Fork .Down => '2'
  | .Fork .Left => '4'
  | .Cross => '5'

namespace Lib

/-- `Side` from the older inline library version `lib.rs`. -/
inductive Side where
  | Up
  | Right
  | Down
  | Left
deriving DecidableEq, Repr, Fintype

/-- `Side::turn` from `lib.rs`. -/
def Side.turn : Side → Side
  | .Up => .Right
  | .Right => .Down
  | .Down => .Left
  | .Left => .Up

/-- `Side::horizontal` from `lib.rs`. -/
def Side.horizontal : Side → Bool
  | .Left | .Right => true
  | _ => false

/-- `Side::inverse` from `lib.rs`. -/
def Side.inverse : Side → Side
  | .Up => .Down
  | .Right => .Left
  | .Down => .Up
  | .Left => .Right

/-- `Block` from `lib.rs`. -/
inductive Block where
  | Empty
  | Endpoint (s : Side)
  | Through (s : Side)
  | Turn (s : Side)
  | Fork (s : Side)
  | Cross
deriving DecidableEq, Repr, Fintype

/-- `Block::turn` from `lib.rs`, verbatim: the `Through`, `Turn` and `Fork`
arms all build an `Endpoint` (while the sibling `turn_me` keeps the variant). -/
def Block.turn : Block → Block
  | .Empty => .Empty
  | .Endpoint s => .Endpoint s.turn
  | .Through s => .Endpoint s.turn
  | .Turn s => .Endpoint s.turn
  | .Fork s => .Endpoint s.turn
  | .Cross => .Cross

/-- `Block::turn_me` from `lib.rs` (result of the in-place clockwise turn). -/
def Block.turnMe : Block → Block
  | .Endpoint s => .Endpoint s.turn
  | .Through s => .Through s.turn
  | .Turn s => .Turn s.turn
  | .Fork s => .Fork s.turn
  | b => b

end Lib

/-- `World` from `world.rs`: height × width (both `NonZeroUsize` in the
source, modelled as `Nat` together with the validity predicate below) and a
row-major block sequence. -/
structure World where
  height : Nat
  width : Nat
  blocks : List Block
deriving DecidableEq, Repr

/-- The representation invariant the source maintains through its
`NonZeroUsize` dimensions, `usize` arithmetic and the `new_from_blocks`
asserts: positive dimensions, a block count that fits in a `usize`, and
`blocks.len() == height * width`. -/
def World.valid (w : World) : Prop :=
  0 < w.height ∧ 0 < w.width ∧ w.height * w.width ≤ USIZE_MAX
    ∧ w.blocks.length = w.height * w.width

instance (w : World) : Decidable w.valid := by
  unfold World.valid; infer_instance

/-- `World::get` from `world.rs`: `self.blocks.get(row * self.width + col)`. -/
def World.get (w : World) (row col : Nat) : Option Block :=
  w.blocks.get? (row * w.width + col)

/-- The block at `(row, col)` after the source's `.unwrap()`: the default is
irrelevant at every call site we reason about, where the index is in range. -/
def World.getBlock (w : World) (row col : Nat) : Block :=
  (w.get row col).getD Block.Empty

/-- `World::new_with` from `world.rs`: fill each cell of a `height × width`
grid with `f (cur / width) (cur % width)`. -/
def World.newWith (height width : Nat) (f : Nat → Nat → Block) : World :=
  ⟨height, width, (List.range (height * width)).map fun cur => f (cur / width) (cur % width)⟩

/-- `World::empty` from `world.rs`: an all-`Empty` grid. -/
def World.empty (height width : Nat) : World :=
  World.newWith height width fun _ _ => Block.Empty

/-- `World::insert_row` from `world.rs`.  `none` models the
"index out of range" assertion panic. -/
def World.insertRow (w : World) (index : Nat) : Option World :=
  if index ≤ w.height then
    some ⟨w.height + 1, w.width,
      w.blocks.take (w.width * index) ++ List.replicate w.width Block.Empty
        ++ w.blocks.drop (w.width * index)⟩
  else none

/-- `World::remove_row` from `world.rs`.  `none` models a panic: either the
"index out of range" assertion, or the `expect("can't remove last row")` on a
height-1 world (`NonZeroUsize::new(0)` is `None`). -/
def World.removeRow (w : World) (index : Nat) : Option World :=
  if index < w.height then
    if w.height = 1 then none
    else
      some ⟨w.height - 1, w.width,
        w.blocks.take (index * w.width) ++ w.blocks.drop (index * w.width + w.width)⟩
  else none

/-- Helper for `chunks`: structural recursion on a fuel argument (the list
length suffices when the chunk size is positive, as at every call site). -/
def chunksAux (n : Nat) : Nat → List Block → List (List Block)
  | _, [] => []
  | 0, _ => []
  | fuel + 1, l => l.take n :: chunksAux n fuel (l.drop n)

/-- `slice::chunks` from the Rust standard library, for a positive chunk
size. -/
def chunks (n : Nat) (l : List Block) : List (List Block) := chunksAux n l.length l

/-- `World::insert_column` from `world.rs`: rebuild each width-sized row chunk
with an `Empty` block inserted at `index`.  `none` models the index assertion
panic. -/
def World.insertColumn (w : World) (index : Nat) : Option World :=
  if index ≤ w.width then
    some ⟨w.height, w.width + 1,
      ((chunks w.width w.blocks).map fun row =>
        row.take index ++ [Block.Empty] ++ row.drop index).flatten⟩
  else none

/-- `World::remove_column` from `world.rs`: keep the blocks whose flat index
is not ≡ `index` modulo the width.  `none` models a panic (index assertion, or
`expect` on a width-1 world). -/
def World.removeColumn (w : World) (index : Nat) : Option World :=
  if index < w.width then
    if w.width = 1 then none
    else
      some ⟨w.height, w.width - 1,
        w.blocks.enum.filterMap fun p => if p.1 % w.width = index then none else some p.2⟩
  else none

/-- `World::check_block_fit_with_right_down` from `world.rs`: boundary rule at
`(row, col)`, then fit against the right and down neighbours when they exist.
(The source's early `return false` becomes the if-then-else / conjunction.) -/
def World.checkBlockFitWithRightDown (w : World) (row col : Nat) : Bool :=
  if (row == 0 && (w.getBlock row col).passable .Up)
      || (row == w.height - 1 && (w.getBlock row col).passable .Down)
      || (col == 0 && (w.getBlock row col).passable .Left)
      || (col == w.width - 1 && (w.getBlock row col).passable .Right) then
    false
  else
    (if col + 1 < w.width then (w.getBlock row col).fit .Right (w.getBlock row (col + 1)) else true)
      && (if row + 1 < w.height then (w.getBlock row col).fit .Down (w.getBlock (row + 1) col) else true)

/-- `World::solved` from `world.rs`: every cell passes the boundary/fit check
and at least one block is non-`Empty`. -/
def World.solved (w : World) : Bool :=
  ((List.range w.height).all fun row =>
      (List.range w.width).all fun col => w.checkBlockFitWithRightDown row col)
    && w.blocks.any fun b => b != Block.Empty

/-- `str::split` on a one-character separator: always returns at least one
(possibly empty) part. -/
def splitOnChar (sep : Char) : List Char → List (List Char)
  | [] => [[]]
  | c :: rest =>
    if c = sep then [] :: splitOnChar sep rest
    else
      match splitOnChar sep rest with
      | [] => [[c]]
      | first :: others => (c :: first) :: others

/-- Drop one trailing carriage return (`str::lines` strips `"\r\n"`). -/
def stripCR (l : List Char) : List Char :=
  if l.getLast? = some '\x0d' then l.dropLast else l

/-- `str::lines`: split at `'\n'`, strip a `'\r'` before each split point, and
do not produce a final empty line for a trailing newline. -/
def rustLines (s : List Char) : List (List Char) :=
  match (splitOnChar '\n' s).getLast? with
  | none => []
  | some last =>
    if last = [] then (splitOnChar '\n' s).dropLast.map stripCR
    else (splitOnChar '\n' s).dropLast.map stripCR ++ [last]

/-- Helper for `parseNonZeroUsize`: accumulate decimal digits the way
`from_str_radix` does, failing at the first non-digit or at overflow. -/
def parseUsizeDigits : List Char → Nat → Except String Nat
  | [], acc => .ok acc
  | c :: rest, acc =>
    if c.isDigit then
      let acc' := acc * 10 + (c.toNat - 48)
      if acc' > USIZE_MAX then .error "number too large to fit in target type"
      else parseUsizeDigits rest acc'
    else .error "invalid digit found in string"

/-- The digit-sequence part of `str::parse::<NonZeroUsize>`: non-empty,
nonzero, within `usize` range.  The error strings are the `Display` messages
of the corresponding `ParseIntError` kinds. -/
def parseNonZeroUsizeDigits (digits : List Char) : Except String Nat :=
  if digits = [] then .error "cannot parse integer from empty string"
  else
    match parseUsizeDigits digits 0 with
    | .error e => .error e
    | .ok n =>
      if n = 0 then .error "number would be zero for non-zero type" else .ok n

/-- `str::parse::<NonZeroUsize>`: optional leading `'+'`, then decimal
digits. -/
def parseNonZeroUsize (s : List Char) : Except String Nat :=
  parseNonZeroUsizeDigits (if s.head? = some '+' then s.tail else s)

/-- Decimal digit character (the target of integer `Display` formatting). -/
def digitChar (d : Nat) : Char :=
  if d = 0 then '0' else if d = 1 then '1' else if d = 2 then '2'
  else if d = 3 then '3' else if d = 4 then '4' else if d = 5 then '5'
  else if d = 6 then '6' else if d = 7 then '7' else if d = 8 then '8'
  else if d = 9 then '9' else '*'

/-- Decimal digits of `n`, most significant first, fuelled so the recursion
is structural (the fuel `n + 1` always suffices). -/
def natDigitsAux (fuel n : Nat) : List Char :=
  match fuel with
  | 0 => []
  | fuel + 1 =>
    if n < 10 then [digitChar n]
    else natDigitsAux fuel (n / 10) ++ [digitChar (n % 10)]

/-- `Display` for an unsigned integer: its decimal digit string. -/
def natToString (n : Nat) : String := ⟨natDigitsAux (n + 1) n⟩

/-- Outcome of `World::from_str`: an `Ok` world, an `Err` string returned to
the caller, or a panic (an `assert!` / `expect` reached during parsing). -/
inductive ParseResult where
  | ok : World → ParseResult
  | err : String → ParseResult
  | panic : String → ParseResult
deriving DecidableEq, Repr

/-- `World::new_from_blocks` from `world.rs`: `unchecked_size` asserts the
product does not overflow, then an assert requires `size == blocks.len()`;
both failures are panics, not errors. -/
def newFromBlocks (height width : Nat) (blocks : List Block) : ParseResult :=
  if height * width > USIZE_MAX then .panic "too many blocks"
  else if height * width = blocks.length then .ok ⟨height, width, blocks⟩
  else .panic "block size not match"

/-- Parse every character of one line as a block, in order, stopping at the
first invalid character (`?` in the source loop). -/
def parseLineBlocks : List Char → Except String (List Block)
  | [] => .ok []
  | c :: cs =>
    match blockFromChar c with
    | some b =>
      match parseLineBlocks cs with
      | .ok bs => .ok (b :: bs)
      | .error e => .error e
    | none => .error ("invalid block char: " ++ c.toString)

/-- Parse every character of every line after the first as a block, in order,
stopping at the first invalid character. -/
def parseAllBlocks : List (List Char) → Except String (List Block)
  | [] => .ok []
  | line :: rest =>
    match parseLineBlocks line with
    | .error e => .error e
    | .ok bs =>
      match parseAllBlocks rest with
      | .ok bs2 => .ok (bs ++ bs2)
      | .error e => .error e

/-- `FromStr for World` from `world.rs`: first line `"<height>,<width>"`
(`NonZeroUsize` each), overflow check via `checked_mul`, then every character
of the remaining lines parsed as a block, and finally `new_from_blocks` (whose
size assertion can panic). -/
def worldFromStr (s : String) : ParseResult :=
  match rustLines s.data with
  | [] => .err "missing size line"
  | firstLine :: rest =>
    match splitOnChar ',' firstLine with
    | [] => .err "can't get height of world"
    | hStr :: hwRest =>
      match parseNonZeroUsize hStr with
      | .error e => .err e
      | .ok height =>
        match hwRest with
        | [] => .err "can't get width of world"
        | wStr :: _ =>
          match parseNonZeroUsize wStr with
          | .error e => .err e
          | .ok width =>
            if height * width > USIZE_MAX then .err "too many blocks"
            else
              match parseAllBlocks rest with
              | .error e => .err e
              | .ok blocks => newFromBlocks height width blocks

/-- `Display for World` from `world.rs`: the `"<height>,<width>"` line, then
each row's block characters, each row terminated by a newline. -/
def worldToString (w : World) : String :=
  natToString w.height ++ "," ++ natToString w.width ++ "\n" ++
    String.mk (((List.range w.height).map fun row =>
      ((List.range w.width).map fun col => blockToChar (w.getBlock row col)) ++ ['\n']).flatten)

/-- `Command` from `game.rs`. -/
inductive Command where
  | noop
  | reset (world : World)
  | moveCursor (dir : Direction)
  | rotateCursorBlock
  | rotateBlock (row col : Nat)
  | rotateWholeWorld (withBlockRotation : Bool)
  | replaceCursorBlock (block : Block)
  | replaceBlock (row col : Nat) (block : Block)
  | insertRow (index : Nat)
  | insertColumn (index : Nat)
  | removeRow (index : Nat)
  | removeColumn (index : Nat)
deriving DecidableEq, Repr

/-- `Game` from `game.rs`: a world, a cursor and the cached solved flag. -/
structure Game where
  world : World
  row : Nat
  col : Nat
  solved : Bool
deriving DecidableEq, Repr

/-- `Game::new` from `game.rs`: cursor at the origin, flag freshly computed. -/
def Game.new (w : World) : Game := ⟨w, 0, 0, w.solved⟩

/-- `Game::mutate_world` from `game.rs`: apply the world mutation, then
recompute the cached solved flag from the new world. -/
def Game.mutateWorld (g : Game) (w' : World) : Game :=
  ⟨w', g.row, g.col, w'.solved⟩

/-- `Game::move_cursor` from `game.rs`: clamp at the grid edges. -/
def Game.moveCursor (g : Game) (dir : Direction) : Game :=
  match dir with
  | .Up => if g.row > 0 then { g with row := g.row - 1 } else g
  | .Right => if g.col < g.world.width - 1 then { g with col := g.col + 1 } else g
  | .Down => if g.row < g.world.height - 1 then { g with row := g.row + 1 } else g
  | .Left => if g.col > 0 then { g with col := g.col - 1 } else g

/-- `Game::rotate_block` from `game.rs`:
`mutate_world(|w| w.get_mut(row, col).unwrap().rotate())`.
`none` models the `unwrap` panic on an out-of-range flat index. -/
def Game.rotateBlock (g : Game) (row col : Nat) : Option Game :=
  let idx := row * g.world.width + col
  match g.world.blocks.get? idx with
  | none => none
  | some b =>
    some (g.mutateWorld ⟨g.world.height, g.world.width, g.world.blocks.set idx b.rotate⟩)

/-- `Game::replace_block` from `game.rs`:
`mutate_world(|w| *w.get_mut(row, col).unwrap() = block)`. -/
def Game.replaceBlock (g : Game) (row col : Nat) (block : Block) : Option Game :=
  let idx := row * g.world.width + col
  match g.world.blocks.get? idx with
  | none => none
  | some _ =>
    some (g.mutateWorld ⟨g.world.height, g.world.width, g.world.blocks.set idx block⟩)

/-- `Game::apply` from `game.rs`.  `none` models a panic: the
`unimplemented!()` arm of `RotateWholeWorld`, or a panic inside the world
mutation (index assertions, `unwrap`s). -/
def applyCommand (g : Game) (c : Command) : Option Game :=
  match c with
  | .noop => some g
  | .reset w => some ⟨w, 0, 0, w.solved⟩
  | .moveCursor dir => some (g.moveCursor dir)
  | .rotateCursorBlock => g.rotateBlock g.row g.col
  | .rotateBlock row col => g.rotateBlock row col
  | .rotateWholeWorld _ => none
  | .replaceCursorBlock block => g.replaceBlock g.row g.col block
  | .replaceBlock row col block => g.replaceBlock row col block
  | .insertRow index =>
    (g.world.insertRow index).map fun w' =>
      let g' := g.mutateWorld w'
      if g'.row ≥ index then { g' with row := g'.row + 1 } else g'
  | .insertColumn index =>
    (g.world.insertColumn index).map fun w' =>
      let g' := g.mutateWorld w'
      if g'.col ≥ index then { g' with col := g'.col + 1 } else g'
  | .removeRow index =>
    if g.world.height > 1 then
      (g.world.removeRow index).map fun w' =>
        let g' := g.mutateWorld w'
        if g'.row = w'.height then { g' with row := g'.row - 1 } else g'
    else some g
  | .removeColumn index =>
    if g.world.width > 1 then
      (g.world.removeColumn index).map fun w' =>
        let g' := g.mutateWorld w'
        if g'.col = w'.width then { g' with col := g'.col - 1 } else g'
    else some g

/-- The commands the spec calls mutating: everything except `Noop`,
`MoveCursor` and the unimplemented `RotateWholeWorld`. -/
def Command.isMutating : Command → Bool
  | .noop => false
  | .moveCursor _ => false
  | .rotateWholeWorld _ => false
  | _ => true

/-- Spec-side reading of the boundary rule of `solved()` (claim C1's words):
no cell is open toward a direction that points off-grid. -/
def World.boundaryClosed (w : World) : Prop :=
  ∀ r < w.height, ∀ c < w.width,
    (r = 0 → (w.getBlock r c).passable .Up = false) ∧
    (r = w.height - 1 → (w.getBlock r c).passable .Down = false) ∧
    (c = 0 → (w.getBlock r c).passable .Left = false) ∧
    (c = w.width - 1 → (w.getBlock r c).passable .Right = false)

/-- Spec-side reading of the pairwise rule of `solved()` (claim C1's words):
every horizontally or vertically adjacent pair of cells fits on its shared
edge. -/
def World.adjacentFit (w : World) : Prop :=
  (∀ r < w.height, ∀ c, c + 1 < w.width →
    (w.getBlock r c).fit .Right (w.getBlock r (c + 1)) = true) ∧
  (∀ c < w.width, ∀ r, r + 1 < w.height →
    (w.getBlock r c).fit .Down (w.getBlock (r + 1) c) = true)

/-- At least one tile is non-`Empty`. -/
def World.hasNonEmpty (w : World) : Prop := ∃ b ∈ w.blocks, b ≠ Block.Empty

/-- The 1×2 world `"><"` (an Endpoint facing right, an Endpoint facing left):
valid and solved. -/
def world12 : World := ⟨1, 2, [Block.Endpoint .Right, Block.Endpoint .Left]⟩

/-- A 1×1 world holding a single `Endpoint(Right)` tile. -/
def worldEndpointRight : World := ⟨1, 1, [Block.Endpoint .Right]⟩

/-- A game over a 1×1 (height-1, width-1) world. -/
def gameH1 : Game := Game.new ⟨1, 1, [Block.Empty]⟩

/-- A game over a 3×1 world with the cursor on row 0. -/
def gameRow0H3 : Game := ⟨⟨3, 1, [Block.Empty, Block.Empty, Block.Empty]⟩, 0, 0, false⟩

/-- The state `gameRow0H3` reaches after `RemoveRow(0)`. -/
def gameAfterRemoveRow : Game := ⟨⟨2, 1, [Block.Empty, Block.Empty]⟩, 0, 0, false⟩

/-- A game over a 1×2 world with the cursor on column 1 (the last column). -/
def gameCol1W2 : Game := ⟨⟨1, 2, [Block.Empty, Block.Empty]⟩, 0, 1, false⟩

/-- The state `gameCol1W2` reaches after `RemoveColumn(1)`. -/
def gameAfterRemoveCol : Game := ⟨⟨1, 1, [Block.Empty]⟩, 0, 0, false⟩

/-- A freshly created game over the solved world `world12`. -/
def gameSolvedW : Game := Game.new world12

/-- The state `gameSolvedW` reaches after `ReplaceBlock(0, 1, Empty)`. -/
def gameAfterReplace : Game := ⟨⟨1, 2, [Block.Endpoint .Right, Block.Empty]⟩, 0, 0, false⟩

/-- Helper: which characters `Block`'s `FromStr` accepts. -/
theorem blockFromChar_isSome_iff (c : Char) :
    (blockFromChar c).isSome = true ↔
      c ∈ [' ', '^', '>', 'v', '<', '/', '-', '1', '7', '9', '3', '8', '6', '2', '4', '5'] := by
  unfold blockFromChar
  split <;> simp_all

/-- C3 counterexample.  `parse ∘ format` is not the identity: `Through(Down)`
formats to the axis-canonical `'/'` and parses back to `Through(Up)`, and
`'>'` parses to `Endpoint(Right)` which formats back to `'^'` (the
`Endpoint(Right) ↦ '^'` arm in `Display for Block`). -/
theorem tile_roundtrip_cex :
    blockFromChar (blockToChar (Block.Through .Down)) = some (Block.Through .Up)
    ∧ Block.Through .Up ≠ Block.Through .Down
    ∧ (blockFromChar '>').map blockToChar = some '^'
    ∧ '^' ≠ '>' := by
  refine ⟨by decide, by decide, by decide, by decide⟩

/-- C3 amended.  `parse ∘ format` returns the very same tile exactly for
tiles other than `Endpoint(Right)` (formatted `'^'` by the `Display` slip,
parsing back as `Endpoint(Up)`) and the non-canonical Straight orientations
`Through(Down)` / `Through(Right)` (formatted as the axis-canonical `'/'` /
`'-'`, parsing back as `Through(Up)` / `Through(Left)`); `format ∘ parse`
returns the same character exactly for the 16 table codes other than `'>'`;
parsing any character outside the table fails. -/
theorem tile_roundtrip_amended :
    (∀ t : Block, blockFromChar (blockToChar t) = some t ↔
        (t ≠ Block.Endpoint .Right ∧ t ≠ Block.Through .Down ∧ t ≠ Block.Through .Right))
    ∧ blockFromChar (blockToChar (Block.Endpoint .Right)) = some (Block.Endpoint .Up)
    ∧ blockFromChar (blockToChar (Block.Through .Right)) = some (Block.Through .Left)
    ∧ (∀ c : Char, ((blockFromChar c).map blockToChar = some c ↔
        (c ∈ [' ', '^', '>', 'v', '<', '/', '-', '1', '7', '9', '3', '8', '6', '2', '4', '5']
          ∧ c ≠ '>')))
    ∧ (∀ c : Char, (blockFromChar c).isSome = true ↔
        c ∈ [' ', '^', '>', 'v', '<', '/', '-', '1', '7', '9', '3', '8', '6', '2', '4', '5']) := by
  refine ⟨by decide, by decide, by decide, ?_, blockFromChar_isSome_iff⟩
  intro c
  unfold blockFromChar
  split <;> simp_all <;> decide

/-- C2 counterexample.  The grid round trip fails on the source: the valid
1×1 world holding `Endpoint(Right)` serializes to `"1,1\n^\n"` (because of
the `Endpoint(Right) ↦ '^'` arm of `Display for Block`), which parses back to
a world holding `Endpoint(Up)`; likewise a world holding `Through(Down)`
comes back holding the axis-canonical `Through(Up)`. -/
theorem world_roundtrip_cex :
    worldEndpointRight.valid
    ∧ worldToString worldEndpointRight = "1,1\n^\n"
    ∧ worldFromStr (worldToString worldEndpointRight)
        = ParseResult.ok ⟨1, 1, [Block.Endpoint .Up]⟩
    ∧ (⟨1, 1, [Block.Endpoint .Up]⟩ : World) ≠ worldEndpointRight
    ∧ worldFromStr (worldToString ⟨1, 1, [Block.Through .Down]⟩)
        = ParseResult.ok ⟨1, 1, [Block.Through .Up]⟩ := by
  refine ⟨by decide, by decide, by decide, by decide, by decide⟩

/-- C6.  `World::from_str` panics (it does not return an error) when the tile
count differs from `height * width`: the `assert!(size == blocks.len())`
inside `new_from_blocks` is reached from `from_str`.  The other four failure
modes are returned to the caller as errors. -/
theorem parse_tile_count_mismatch_panics :
    worldFromStr "1,2\n^" = ParseResult.panic "block size not match"
    ∧ worldFromStr "" = ParseResult.err "missing size line"
    ∧ worldFromStr "0,2\n//" = ParseResult.err "number would be zero for non-zero type"
    ∧ worldFromStr "a,2\n//" = ParseResult.err "invalid digit found in string"
    ∧ worldFromStr "1,2\nx-" = ParseResult.err "invalid block char: x"
    ∧ worldFromStr "4294967296,4294967296\n" = ParseResult.err "too many blocks" := by
  refine ⟨by decide, by decide, by decide, by decide, by decide, by decide⟩

/-- C7.  Rotation is a 4-cycle and variant-preserving for `Block::turn` in
`block.rs`, but the older `Block::turn` in `lib.rs` maps the `Through`,
`Turn` and `Fork` variants to `Endpoint` (contradicting its own `turn_me`,
which preserves the variant), so there it is neither variant-preserving nor a
4-cycle: four turns send `Through(Up)` to `Endpoint(Up)`. -/
theorem tile_rotation_four_cycle_bug :
    (∀ t : Block, t.turn.turn.turn.turn = t ∧ t.turn.kind = t.kind)
    ∧ Block.Empty.turn = Block.Empty
    ∧ Block.Cross.turn = Block.Cross
    ∧ (∀ d : Direction,
        (Block.Endpoint d).turn = Block.Endpoint d.turn
        ∧ (Block.Through d).turn = Block.Through d.turn
        ∧ (Block.Turn d).turn = Block.Turn d.turn
        ∧ (Block.Fork d).turn = Block.Fork d.turn)
    ∧ (Lib.Block.Through Lib.Side.Up).turn = Lib.Block.Endpoint Lib.Side.Right
    ∧ (Lib.Block.Through Lib.Side.Up).turn.turn.turn.turn ≠ Lib.Block.Through Lib.Side.Up
    ∧ (Lib.Block.Through Lib.Side.Up).turnMe = Lib.Block.Through Lib.Side.Right := by
  refine ⟨by decide, by decide, by decide, by decide, by decide, by decide, by decide⟩

/-- C8.  `fit` is direction-symmetric: `a.fit(d, b) == b.fit(d.opposite(), a)`
for all tile pairs and every direction. -/
theorem fit_direction_symm :
    ∀ (a b : Block) (d : Direction), a.fit d b = b.fit d.opposite a := by decide

/-- C10.  `Game::apply(RotateWholeWorld(_))` hits the `unimplemented!()` arm
for every game state and both boolean arguments: the result is always a panic
(`none`), never a state. -/
theorem rotateWholeWorld_always_panics :
    ∀ (g : Game) (b : Bool), applyCommand g (Command.rotateWholeWorld b) = none :=
  fun _ _ => rfl

/-- C5 counterexample.  The grid-level `World::remove_row` with the in-range
index 0 on a height-1 world is not a no-op: it panics (`none`), via
`NonZeroUsize::new(0).expect("can't remove last row")`. -/
theorem removeRow_height1_panics :
    World.removeRow ⟨1, 1, [Block.Empty]⟩ 0 = none ∧
      World.removeColumn ⟨1, 1, [Block.Empty]⟩ 0 = none := by
  refine ⟨by decide, by decide⟩

/-- C5 amended.  The height/width floor guard lives in `Game`, not in
`World`: `Game::apply(RemoveRow(_))` on a height-1 grid returns the game
unchanged (any index, no panic), and `Game::apply(RemoveColumn(_))` on a
width-1 grid likewise. -/
theorem game_removeRow_floor_noop (g : Game) (i : Nat) :
    (g.world.height = 1 → applyCommand g (Command.removeRow i) = some g)
    ∧ (g.world.width = 1 → applyCommand g (Command.removeColumn i) = some g) := by
  constructor <;> intro h <;> simp [applyCommand, h]

/-- C5 witness: the amended statement at a concrete height-1, width-1 game. -/
theorem game_removeRow_floor_noop_witness :
    applyCommand gameH1 (Command.removeRow 0) = some gameH1
    ∧ applyCommand gameH1 (Command.removeColumn 0) = some gameH1 :=
  ⟨(game_removeRow_floor_noop gameH1 0).1 rfl, (game_removeRow_floor_noop gameH1 0).2 rfl⟩

/-- Helper: what `check_block_fit_with_right_down` decides at one cell. -/
theorem check_iff (w : World) (row col : Nat) :
    w.checkBlockFitWithRightDown row col = true ↔
      ((row = 0 → (w.getBlock row col).passable .Up = false) ∧
       (row = w.height - 1 → (w.getBlock row col).passable .Down = false) ∧
       (col = 0 → (w.getBlock row col).passable .Left = false) ∧
       (col = w.width - 1 → (w.getBlock row col).passable .Right = false)) ∧
      ((col + 1 < w.width →
          (w.getBlock row col).fit .Right (w.getBlock row (col + 1)) = true) ∧
       (row + 1 < w.height →
          (w.getBlock row col).fit .Down (w.getBlock (row + 1) col) = true)) := by
  unfold World.checkBlockFitWithRightDown
  by_cases hC : ((row == 0 && (w.getBlock row col).passable .Up)
      || (row == w.height - 1 && (w.getBlock row col).passable .Down)
      || (col == 0 && (w.getBlock row col).passable .Left)
      || (col == w.width - 1 && (w.getBlock row col).passable .Right)) = true
  · rw [if_pos hC]
    simp only [Bool.or_eq_true, Bool.and_eq_true, beq_iff_eq] at hC
    constructor
    · intro h; exact absurd h (by simp)
    · rintro ⟨⟨h1, h2, h3, h4⟩, -⟩
      exfalso
      rcases hC with ((⟨he, hp⟩ | ⟨he, hp⟩) | ⟨he, hp⟩) | ⟨he, hp⟩
      · rw [h1 he] at hp; exact Bool.false_ne_true hp
      · rw [h2 he] at hp; exact Bool.false_ne_true hp
      · rw [h3 he] at hp; exact Bool.false_ne_true hp
      · rw [h4 he] at hp; exact Bool.false_ne_true hp
  · rw [if_neg hC]
    simp only [Bool.or_eq_true, Bool.and_eq_true, beq_iff_eq, not_or, not_and] at hC
    obtain ⟨⟨⟨h1, h2⟩, h3⟩, h4⟩ := hC
    simp only [Bool.and_eq_true]
    constructor
    · rintro ⟨hl, hr⟩
      refine ⟨⟨fun h => Bool.eq_false_iff.mpr (h1 h), fun h => Bool.eq_false_iff.mpr (h2 h),
          fun h => Bool.eq_false_iff.mpr (h3 h), fun h => Bool.eq_false_iff.mpr (h4 h)⟩,
        fun h5 => ?_, fun h6 => ?_⟩
      · rw [if_pos h5] at hl; exact hl
      · rw [if_pos h6] at hr; exact hr
    · rintro ⟨-, hf1, hf2⟩
      constructor
      · by_cases h5 : col + 1 < w.width
        · rw [if_pos h5]; exact hf1 h5
        · rw [if_neg h5]
      · by_cases h6 : row + 1 < w.height
        · rw [if_pos h6]; exact hf2 h6
        · rw [if_neg h6]

/-- Helper: `solved` unfolded to the per-cell checks plus the non-Empty
existence. -/
theorem solved_eq_true_iff (w : World) :
    w.solved = true ↔
      (∀ r < w.height, ∀ c < w.width, w.checkBlockFitWithRightDown r c = true)
        ∧ w.hasNonEmpty := by
  unfold World.solved World.hasNonEmpty
  simp [List.all_eq_true, List.any_eq_true, List.mem_range, Bool.and_eq_true, bne_iff_ne]

/-- C1.  `solved()` is true exactly when no cell opens off-grid, every
horizontally or vertically adjacent pair fits on its shared edge, and at
least one tile is non-Empty; and every all-Empty grid is unsolved. -/
theorem solved_spec :
    (∀ w : World, w.valid →
      (w.solved = true ↔ w.boundaryClosed ∧ w.adjacentFit ∧ w.hasNonEmpty))
    ∧ ∀ h wd : Nat, (World.empty h wd).solved = false := by
  constructor
  · intro w _
    rw [solved_eq_true_iff]
    constructor
    · rintro ⟨hall, hne⟩
      refine ⟨fun r hr c hc => ((check_iff w r c).1 (hall r hr c hc)).1,
        ⟨fun r hr c hc1 => ?_, fun c hc r hr1 => ?_⟩, hne⟩
      · exact ((check_iff w r c).1 (hall r hr c (by omega))).2.1 hc1
      · exact ((check_iff w r c).1 (hall r (by omega) c hc)).2.2 hr1
    · rintro ⟨hb, ⟨haf1, haf2⟩, hne⟩
      refine ⟨fun r hr c hc => ?_, hne⟩
      exact (check_iff w r c).2 ⟨hb r hr c hc, fun h5 => haf1 r hr c h5, fun h6 => haf2 c hc r h6⟩
  · intro h wd
    unfold World.empty World.newWith World.solved
    simp [List.any_eq_true]

/-- C1 witness: the equivalence at the concrete valid world `"><"` and the
all-Empty case at size 2×2. -/
theorem solved_spec_witness :
    (world12.solved = true ↔ world12.boundaryClosed ∧ world12.adjacentFit ∧ world12.hasNonEmpty)
    ∧ (World.empty 2 2).solved = false :=
  ⟨solved_spec.1 world12 (by decide), solved_spec.2 2 2⟩

/-- C9 counterexample.  Removing the row containing the cursor does NOT clamp
the cursor onto the new last valid row: on a 3×1 world with the cursor on row
0, `RemoveRow(0)` leaves the cursor on row 0, not on the new last row 1. -/
theorem removeRow_cursor_cex :
    applyCommand gameRow0H3 (Command.removeRow 0) = some gameAfterRemoveRow
    ∧ gameRow0H3.row = 0
    ∧ gameAfterRemoveRow.row ≠ gameAfterRemoveRow.world.height - 1 := by
  refine ⟨by decide, by decide, by decide⟩

/-- C9 amended.  After a successful `RemoveRow(i)`, the cursor row is
decremented by one exactly when the cursor sat on the (old) last row —
i.e. the cursor is clamped back into bounds — and is unchanged otherwise;
the column is untouched.  Symmetrically for `RemoveColumn(i)`. -/
theorem remove_cursor_rule (g : Game) (i : Nat) (g' : Game) :
    (applyCommand g (Command.removeRow i) = some g' →
      g'.row = (if g.row = g.world.height - 1 then g.row - 1 else g.row) ∧ g'.col = g.col)
    ∧ (applyCommand g (Command.removeColumn i) = some g' →
      g'.col = (if g.col = g.world.width - 1 then g.col - 1 else g.col) ∧ g'.row = g.row) := by
  constructor
  · intro happ
    simp only [applyCommand] at happ
    split at happ
    · simp only [World.removeRow] at happ
      split at happ
      · split at happ
        · exact absurd happ (by simp)
        · simp only [Option.map_some', Option.some.injEq] at happ
          subst happ
          dsimp only [Game.mutateWorld]
          split <;> exact ⟨rfl, rfl⟩
      · exact absurd happ (by simp)
    · rename_i hh
      simp only [Option.some.injEq] at happ
      subst happ
      refine ⟨?_, rfl⟩
      split
      · omega
      · rfl
  · intro happ
    simp only [applyCommand] at happ
    split at happ
    · simp only [World.removeColumn] at happ
      split at happ
      · split at happ
        · exact absurd happ (by simp)
        · simp only [Option.map_some', Option.some.injEq] at happ
          subst happ
          dsimp only [Game.mutateWorld]
          split <;> exact ⟨rfl, rfl⟩
      · exact absurd happ (by simp)
    · rename_i hh
      simp only [Option.some.injEq] at happ
      subst happ
      refine ⟨?_, rfl⟩
      split
      · omega
      · rfl

/-- C9 witness: the amended rule at two concrete games — a row removal that
leaves the cursor in place, and a column removal that clamps it. -/
theorem remove_cursor_rule_witness :
    (gameAfterRemoveRow.row
        = (if gameRow0H3.row = gameRow0H3.world.height - 1 then gameRow0H3.row - 1
            else gameRow0H3.row)
      ∧ gameAfterRemoveRow.col = gameRow0H3.col)
    ∧ (gameAfterRemoveCol.col
        = (if gameCol1W2.col = gameCol1W2.world.width - 1 then gameCol1W2.col - 1
            else gameCol1W2.col)
      ∧ gameAfterRemoveCol.row = gameCol1W2.row) :=
  ⟨(remove_cursor_rule gameRow0H3 0 gameAfterRemoveRow).1 (by decide),
   (remove_cursor_rule gameCol1W2 1 gameAfterRemoveCol).2 (by decide)⟩

/-- C4.  Every mutating command that completes recomputes the cached solved
flag: if the flag was in sync before the command (.as `Game::new`
establishes), it equals a fresh `world.solved()` recomputation afterwards.
Every mutating command except a floored `RemoveRow`/`RemoveColumn` no-op goes
through `mutate_world`, which recomputes the flag unconditionally; the no-op
case returns the state unchanged, which is why the pre-command sync
hypothesis is needed at all. -/
theorem solved_flag_recomputed (g : Game) (c : Command) (g' : Game)
    (hm : c.isMutating = true) (hinv : g.solved = g.world.solved)
    (happ : applyCommand g c = some g') :
    g'.solved = g'.world.solved := by
  cases c with
  | noop => simp [Command.isMutating] at hm
  | moveCursor d => simp [Command.isMutating] at hm
  | rotateWholeWorld b => simp [applyCommand] at happ
  | reset w =>
    simp only [applyCommand, Option.some.injEq] at happ
    subst happ; rfl
  | rotateCursorBlock =>
    simp only [applyCommand, Game.rotateBlock] at happ
    split at happ
    · exact absurd happ (by simp)
    · simp only [Option.some.injEq] at happ; subst happ; rfl
  | rotateBlock r cl =>
    simp only [applyCommand, Game.rotateBlock] at happ
    split at happ
    · exact absurd happ (by simp)
    · simp only [Option.some.injEq] at happ; subst happ; rfl
  | replaceCursorBlock b =>
    simp only [applyCommand, Game.replaceBlock] at happ
    split at happ
    · exact absurd happ (by simp)
    · simp only [Option.some.injEq] at happ; subst happ; rfl
  | replaceBlock r cl b =>
    simp only [applyCommand, Game.replaceBlock] at happ
    split at happ
    · exact absurd happ (by simp)
    · simp only [Option.some.injEq] at happ; subst happ; rfl
  | insertRow i =>
    simp only [applyCommand, World.insertRow] at happ
    split at happ
    · simp only [Option.map_some', Option.some.injEq] at happ
      subst happ
      dsimp only [Game.mutateWorld]
      split <;> rfl
    · exact absurd happ (by simp)
  | insertColumn i =>
    simp only [applyCommand, World.insertColumn] at happ
    split at happ
    · simp only [Option.map_some', Option.some.injEq] at happ
      subst happ
      dsimp only [Game.mutateWorld]
      split <;> rfl
    · exact absurd happ (by simp)
  | removeRow i =>
    simp only [applyCommand] at happ
    split at happ
    · simp only [World.removeRow] at happ
      split at happ
      · split at happ
        · exact absurd happ (by simp)
        · simp only [Option.map_some', Option.some.injEq] at happ
          subst happ
          dsimp only [Game.mutateWorld]
          split <;> rfl
      · exact absurd happ (by simp)
    · simp only [Option.some.injEq] at happ; subst happ; exact hinv
  | removeColumn i =>
    simp only [applyCommand] at happ
    split at happ
    · simp only [World.removeColumn] at happ
      split at happ
      · split at happ
        · exact absurd happ (by simp)
        · simp only [Option.map_some', Option.some.injEq] at happ
          subst happ
          dsimp only [Game.mutateWorld]
          split <;> rfl
      · exact absurd happ (by simp)
    · simp only [Option.some.injEq] at happ; subst happ; exact hinv

/-- C4 witness: the invariant at a concrete freshly created game after a
`ReplaceBlock` command. -/
theorem solved_flag_recomputed_witness :
    gameAfterReplace.solved = gameAfterReplace.world.solved :=
  solved_flag_recomputed gameSolvedW (Command.replaceBlock 0 1 Block.Empty) gameAfterReplace
    (by decide) (by decide) (by decide)

/-- Helper: properties of a decimal digit character. -/
theorem digitChar_spec (d : Nat) (hd : d < 10) :
    (digitChar d).isDigit = true ∧ (digitChar d).toNat - 48 = d
      ∧ digitChar d ≠ '\n' ∧ digitChar d ≠ ',' ∧ digitChar d ≠ '\x0d'
      ∧ digitChar d ≠ '+' := by
  interval_cases d <;>
    exact ⟨by decide, by decide, by decide, by decide, by decide, by decide⟩

/-- Helper: the digit string of a number is never empty (with enough fuel). -/
theorem natDigitsAux_ne_nil (fuel n : Nat) (h : n < fuel) :
    natDigitsAux fuel n ≠ [] := by
  cases fuel with
  | zero => omega
  | succ fuel =>
    unfold natDigitsAux
    by_cases h10 : n < 10
    · rw [if_pos h10]; simp
    · rw [if_neg h10]; simp

/-- Helper: every character of a digit string is a `digitChar`. -/
theorem natDigitsAux_mem (fuel n : Nat) :
    ∀ c ∈ natDigitsAux fuel n, ∃ d, d < 10 ∧ c = digitChar d := by
  induction fuel generalizing n with
  | zero => intro c hc; simp [natDigitsAux] at hc
  | succ fuel ih =>
    unfold natDigitsAux
    by_cases h10 : n < 10
    · rw [if_pos h10]
      intro c hc
      simp only [List.mem_singleton] at hc
      exact ⟨n, h10, hc⟩
    · rw [if_neg h10]
      intro c hc
      rw [List.mem_append] at hc
      rcases hc with hc | hc
      · exact ih (n / 10) c hc
      · simp only [List.mem_singleton] at hc
        exact ⟨n % 10, by omega, hc⟩

/-- Helper: digit accumulation distributes over list append. -/
theorem parseUsizeDigits_append (l1 l2 : List Char) (acc : Nat) :
    parseUsizeDigits (l1 ++ l2) acc =
      match parseUsizeDigits l1 acc with
      | .ok acc1 => parseUsizeDigits l2 acc1
      | .error e => Except.error e := by
  induction l1 generalizing acc with
  | nil => simp [parseUsizeDigits]
  | cons c cs ih =>
    simp only [List.cons_append, parseUsizeDigits]
    by_cases hc : c.isDigit
    · simp only [if_pos hc]
      by_cases hov : acc * 10 + (c.toNat - 48) > USIZE_MAX
      · simp [hov]
      · simp [hov, ih]
    · simp [hc]

/-- Helper: accumulating the printed digits of `n` from 0 recovers `n`. -/
theorem parse_natDigitsAux (fuel n : Nat) (hfuel : n < fuel) (hmax : n ≤ USIZE_MAX) :
    parseUsizeDigits (natDigitsAux fuel n) 0 = .ok n := by
  induction fuel generalizing n with
  | zero => omega
  | succ fuel ih =>
    unfold natDigitsAux
    by_cases h10 : n < 10
    · rw [if_pos h10]
      obtain ⟨hd1, hd2, -⟩ := digitChar_spec n h10
      have hov : ¬(0 * 10 + ((digitChar n).toNat - 48) > USIZE_MAX) := by
        rw [hd2]; omega
      simp [parseUsizeDigits, hd1, hd2, hov]
      omega
    · rw [if_neg h10]
      rw [parseUsizeDigits_append]
      have hdiv : n / 10 < fuel := by omega
      have hmax2 : n / 10 ≤ USIZE_MAX := by omega
      rw [ih (n / 10) hdiv hmax2]
      have h10' : n % 10 < 10 := by omega
      obtain ⟨hd1, hd2, -⟩ := digitChar_spec (n % 10) h10'
      have hov : ¬(n / 10 * 10 + ((digitChar (n % 10)).toNat - 48) > USIZE_MAX) := by
        rw [hd2]; omega
      have hacc : n / 10 * 10 + (n % 10) = n := by omega
      simp [parseUsizeDigits, hd1, hd2, hov, hacc]
      omega

/-- Helper: `parse::<NonZeroUsize>` of the printed digits of a positive
in-range number succeeds with that number. -/
theorem parseNonZeroUsize_natDigits (n : Nat) (hpos : 0 < n) (hmax : n ≤ USIZE_MAX) :
    parseNonZeroUsize (natDigitsAux (n + 1) n) = .ok n := by
  have hne : natDigitsAux (n + 1) n ≠ [] := natDigitsAux_ne_nil (n + 1) n (by omega)
  have hhead : (natDigitsAux (n + 1) n).head? ≠ some '+' := by
    rcases he : natDigitsAux (n + 1) n with - | ⟨c, cs⟩
    · simp
    · have hcm : c ∈ natDigitsAux (n + 1) n := by rw [he]; exact List.mem_cons_self c cs
      obtain ⟨d, hd, hcd⟩ := natDigitsAux_mem (n + 1) n c hcm
      obtain ⟨-, -, -, -, -, hplus⟩ := digitChar_spec d hd
      intro h
      rw [List.head?_cons] at h
      have hc' : c = '+' := Option.some.inj h
      rw [hcd] at hc'
      exact hplus hc'
  unfold parseNonZeroUsize
  rw [if_neg hhead]
  unfold parseNonZeroUsizeDigits
  rw [if_neg hne, parse_natDigitsAux (n + 1) n (by omega) hmax]
  simp [Nat.pos_iff_ne_zero.mp hpos]

/-- Helper: splitting a separator-free chunk yields that single chunk. -/
theorem splitOnChar_not_mem (sep : Char) (l : List Char) (h : sep ∉ l) :
    splitOnChar sep l = [l] := by
  induction l with
  | nil => rfl
  | cons c cs ih =>
    have hc : ¬c = sep := fun he => h (he ▸ List.mem_cons_self c cs)
    have hcs : sep ∉ cs := fun hm => h (List.mem_cons_of_mem c hm)
    simp only [splitOnChar, if_neg hc, ih hcs]

/-- Helper: splitting past a separator-free prefix peels that prefix off. -/
theorem splitOnChar_append (sep : Char) (l1 l2 : List Char) (h : sep ∉ l1) :
    splitOnChar sep (l1 ++ sep :: l2) = l1 :: splitOnChar sep l2 := by
  induction l1 with
  | nil => simp [splitOnChar]
  | cons c cs ih =>
    have hc : ¬c = sep := fun he => h (he ▸ List.mem_cons_self c cs)
    have hcs : sep ∉ cs := fun hm => h (List.mem_cons_of_mem c hm)
    simp only [List.cons_append, splitOnChar, if_neg hc]
    rw [List.append_eq, ih hcs]

/-- Helper: splitting a concatenation of separator-terminated chunks yields
the chunks plus one final empty part. -/
theorem splitOnChar_rows (sep : Char) (rows : List (List Char))
    (h : ∀ r ∈ rows, sep ∉ r) :
    splitOnChar sep ((rows.map (· ++ [sep])).flatten) = rows ++ [[]] := by
  induction rows with
  | nil => rfl
  | cons r rs ih =>
    have hr : sep ∉ r := h r (List.mem_cons_self r rs)
    have hrs : ∀ x ∈ rs, sep ∉ x := fun x hx => h x (List.mem_cons_of_mem r hx)
    simp only [List.map_cons, List.flatten_cons, List.append_assoc, List.singleton_append]
    rw [splitOnChar_append sep r _ hr, ih hrs]
    rfl

/-- Helper: a list whose last element is relevant is a member. -/
theorem mem_of_getLast?_eq (l : List Char) (a : Char) (h : l.getLast? = some a) : a ∈ l := by
  induction l with
  | nil => simp at h
  | cons c cs ih =>
    cases cs with
    | nil =>
      simp only [List.getLast?_singleton, Option.some.injEq] at h
      simp [h]
    | cons d ds =>
      rw [List.getLast?_cons_cons] at h
      exact List.mem_cons_of_mem c (ih h)

/-- Helper: stripping a carriage return from a CR-free line is the identity. -/
theorem stripCR_eq_self (l : List Char) (h : ∀ c ∈ l, c ≠ '\x0d') : stripCR l = l := by
  have hne : ¬l.getLast? = some '\x0d' :=
    fun hcon => (h '\x0d' (mem_of_getLast?_eq l '\x0d' hcon)) rfl
  unfold stripCR
  rw [if_neg hne]

/-- Helper: stripping carriage returns from CR-free lines is the identity. -/
theorem map_stripCR_eq_self (ls : List (List Char))
    (h : ∀ l ∈ ls, ∀ c ∈ l, c ≠ '\x0d') : ls.map stripCR = ls := by
  induction ls with
  | nil => rfl
  | cons l ls ih =>
    rw [List.map_cons, stripCR_eq_self l (h l (List.mem_cons_self l ls)),
      ih fun x hx => h x (List.mem_cons_of_mem l hx)]

/-- Helper: `str::lines` of a size line followed by newline-terminated rows
(no stray `'\n'` or `'\r'` anywhere) gives the size line and the rows. -/
theorem rustLines_lines (first : List Char) (rows : List (List Char))
    (hf : ∀ c ∈ first, c ≠ '\n' ∧ c ≠ '\x0d')
    (hr : ∀ r ∈ rows, ∀ c ∈ r, c ≠ '\n' ∧ c ≠ '\x0d') :
    rustLines (first ++ '\n' :: (rows.map (· ++ ['\n'])).flatten) = first :: rows := by
  have hnf : '\n' ∉ first := fun hm => (hf _ hm).1 rfl
  have hsplit : splitOnChar '\n' (first ++ '\n' :: (rows.map (· ++ ['\n'])).flatten)
      = (first :: rows) ++ [[]] := by
    rw [splitOnChar_append _ _ _ hnf,
      splitOnChar_rows _ rows fun r hrr hm => (hr r hrr '\n' hm).1 rfl]
    rfl
  unfold rustLines
  rw [hsplit, List.getLast?_concat]
  dsimp only
  rw [if_pos rfl, List.dropLast_concat]
  apply map_stripCR_eq_self
  intro l hl c hc
  rcases List.mem_cons.mp hl with hl' | hl'
  · exact (hf c (hl' ▸ hc)).2
  · exact (hr l hl' c hc).2

/-- Helper: block characters are never line or record separators. -/
theorem blockToChar_ne_sep :
    ∀ b : Block, blockToChar b ≠ '\n' ∧ blockToChar b ≠ '\x0d' := by decide

/-- Helper: parse-of-format is the identity on canonical blocks. -/
theorem blockFromChar_toChar_canonical :
    ∀ b : Block, b ≠ Block.Endpoint .Right → b ≠ Block.Through .Down →
      b ≠ Block.Through .Right → blockFromChar (blockToChar b) = some b := by decide

/-- Helper: parsing the formatted characters of a line of canonical blocks
recovers the blocks. -/
theorem parseLineBlocks_map (bs : List Block)
    (h : ∀ b ∈ bs, blockFromChar (blockToChar b) = some b) :
    parseLineBlocks (bs.map blockToChar) = .ok bs := by
  induction bs with
  | nil => rfl
  | cons b bs ih =>
    rw [List.map_cons]
    unfold parseLineBlocks
    rw [h b (List.mem_cons_self b bs), ih fun x hx => h x (List.mem_cons_of_mem b hx)]

/-- Helper: parsing all formatted rows recovers the flattened blocks. -/
theorem parseAllBlocks_map (rows : List (List Block))
    (h : ∀ r ∈ rows, ∀ b ∈ r, blockFromChar (blockToChar b) = some b) :
    parseAllBlocks (rows.map (List.map blockToChar)) = .ok rows.flatten := by
  induction rows with
  | nil => rfl
  | cons r rs ih =>
    rw [List.map_cons]
    unfold parseAllBlocks
    rw [parseLineBlocks_map r (h r (List.mem_cons_self r rs)),
      ih fun x hx => h x (List.mem_cons_of_mem r hx)]
    rw [List.flatten_cons]

/-- Helper: reading the first `n` positions of a list (with any default)
reproduces its `take n`. -/
theorem range_map_get_take (l : List Block) (n : Nat) (hn : n ≤ l.length) :
    (List.range n).map (fun c => (l.get? c).getD Block.Empty) = l.take n := by
  induction n with
  | zero => simp
  | succ n ih =>
    rw [List.range_succ, List.map_append, ih (by omega), List.map_singleton, List.take_succ]
    rcases he : l.get? n with - | b
    · exact absurd (List.get?_eq_none.mp he) (by omega)
    · have he' : l[n]? = some b := by
        rw [← List.get?_eq_getElem?]; exact he
      simp [he']

/-- Helper: reading a valid row-major list back row by row reproduces it. -/
theorem flatten_rows_eq (l : List Block) (h wd : Nat) (hl : l.length = h * wd) :
    ((List.range h).map fun r =>
      (List.range wd).map fun c => (l.get? (r * wd + c)).getD Block.Empty).flatten = l := by
  induction h generalizing l with
  | zero =>
    have : l = [] := List.eq_nil_of_length_eq_zero (by simpa using hl)
    simp [this]
  | succ h ih =>
    rw [List.range_succ_eq_map, List.map_cons, List.flatten_cons, List.map_map]
    have hrow : ((List.range wd).map fun c => (l.get? (0 * wd + c)).getD Block.Empty)
        = l.take wd := by
      simp only [Nat.zero_mul, Nat.zero_add]
      exact range_map_get_take l wd (by rw [hl]; exact Nat.le_mul_of_pos_left wd (by omega))
    have htail : ∀ r ∈ List.range h,
        ((fun r => (List.range wd).map fun c => (l.get? (r * wd + c)).getD Block.Empty)
            ∘ (· + 1)) r
          = (List.range wd).map fun c => ((l.drop wd).get? (r * wd + c)).getD Block.Empty := by
      intro r _
      simp only [Function.comp_apply]
      apply List.map_congr_left
      intro c _
      rw [List.get?_drop]
      congr 2
      ring
    rw [List.map_congr_left htail,
      ih (l.drop wd) (by rw [List.length_drop, hl]; ring_nf; omega)]
    rw [hrow, List.take_append_drop]

/-- Helper: an in-range `getBlock` is one of the world's blocks. -/
theorem getBlock_mem (w : World) (hlen : w.blocks.length = w.height * w.width)
    (r c : Nat) (hr : r < w.height) (hc : c < w.width) :
    w.getBlock r c ∈ w.blocks := by
  unfold World.getBlock World.get
  have hidx : r * w.width + c < w.blocks.length := by
    rw [hlen]
    calc r * w.width + c < r * w.width + w.width := by omega
    _ = (r + 1) * w.width := by ring
    _ ≤ w.height * w.width := Nat.mul_le_mul_right _ (by omega)
  rcases he : w.blocks.get? (r * w.width + c) with - | b
  · exact absurd (List.get?_eq_none.mp he) (by omega)
  · simp only [Option.getD_some]
    exact List.get?_mem he

/-- Helper: height and width of a valid world each fit in a `usize`. -/
theorem valid_dims_le_max (w : World) (hw : 0 < w.width) (hh : 0 < w.height)
    (hmax : w.height * w.width ≤ USIZE_MAX) :
    w.height ≤ USIZE_MAX ∧ w.width ≤ USIZE_MAX := by
  constructor
  · have h1 : w.height * 1 ≤ w.height * w.width := Nat.mul_le_mul_left w.height hw
    rw [Nat.mul_one] at h1
    exact le_trans h1 hmax
  · have h1 : 1 * w.width ≤ w.height * w.width := Nat.mul_le_mul_right w.width hh
    rw [Nat.one_mul] at h1
    exact le_trans h1 hmax

/-- C2 amended.  For every valid grid whose tiles avoid `Endpoint(Right)` and
the non-canonical Straight orientations `Through(Down)` / `Through(Right)`,
parsing the serialized text succeeds and yields the very same grid,
dimensions and tiles included.  (Grids containing one of those three tiles
parse back with that tile canonicalized, as the counterexample shows.) -/
theorem world_roundtrip_amended (w : World) (hv : w.valid)
    (hcanon : ∀ b ∈ w.blocks, b ≠ Block.Endpoint .Right ∧ b ≠ Block.Through .Down
      ∧ b ≠ Block.Through .Right) :
    worldFromStr (worldToString w) = ParseResult.ok w := by
  obtain ⟨hh, hw, hmax, hlen⟩ := hv
  obtain ⟨hHmax, hWmax⟩ := valid_dims_le_max w hw hh hmax
  -- the serialized text, as a size line plus newline-terminated row chunks
  have hdata : (worldToString w).data
      = (natDigitsAux (w.height + 1) w.height ++ ',' :: natDigitsAux (w.width + 1) w.width)
        ++ '\n' ::
          (((List.range w.height).map fun r =>
            (List.range w.width).map fun c => blockToChar (w.getBlock r c)).map
              (· ++ ['\n'])).flatten := by
    simp [worldToString, natToString, List.map_map, Function.comp, List.append_assoc]
    rfl
  have hdigit_ne : ∀ (fuel n : Nat), ∀ c ∈ natDigitsAux fuel n, c ≠ '\n' ∧ c ≠ '\x0d' := by
    intro fuel n c hc
    obtain ⟨d, hd, rfl⟩ := natDigitsAux_mem fuel n c hc
    obtain ⟨-, -, h1, -, h2, -⟩ := digitChar_spec d hd
    exact ⟨h1, h2⟩
  have hfirst : ∀ c ∈ natDigitsAux (w.height + 1) w.height
      ++ ',' :: natDigitsAux (w.width + 1) w.width, c ≠ '\n' ∧ c ≠ '\x0d' := by
    intro c hc
    rcases List.mem_append.mp hc with hc | hc
    · exact hdigit_ne _ _ c hc
    · rcases List.mem_cons.mp hc with rfl | hc
      · exact ⟨by decide, by decide⟩
      · exact hdigit_ne _ _ c hc
  have hrows : ∀ r ∈ (List.range w.height).map fun r =>
        (List.range w.width).map fun c => blockToChar (w.getBlock r c),
      ∀ c ∈ r, c ≠ '\n' ∧ c ≠ '\x0d' := by
    intro r hr c hc
    obtain ⟨rr, -, rfl⟩ := List.mem_map.mp hr
    obtain ⟨cc, -, rfl⟩ := List.mem_map.mp hc
    exact blockToChar_ne_sep (w.getBlock rr cc)
  have hcomma_dH : ',' ∉ natDigitsAux (w.height + 1) w.height := by
    intro hm
    obtain ⟨d, hd, he⟩ := natDigitsAux_mem _ _ ',' hm
    obtain ⟨-, -, -, h1, -, -⟩ := digitChar_spec d hd
    exact h1 he.symm
  have hcomma_dW : ',' ∉ natDigitsAux (w.width + 1) w.width := by
    intro hm
    obtain ⟨d, hd, he⟩ := natDigitsAux_mem _ _ ',' hm
    obtain ⟨-, -, -, h1, -, -⟩ := digitChar_spec d hd
    exact h1 he.symm
  have hsplit2 : splitOnChar ','
      (natDigitsAux (w.height + 1) w.height ++ ',' :: natDigitsAux (w.width + 1) w.width)
      = [natDigitsAux (w.height + 1) w.height, natDigitsAux (w.width + 1) w.width] := by
    rw [splitOnChar_append ',' _ _ hcomma_dH, splitOnChar_not_mem ',' _ hcomma_dW]
  have hcanon' : ∀ r ∈ (List.range w.height).map fun r =>
        (List.range w.width).map fun c => w.getBlock r c,
      ∀ b ∈ r, blockFromChar (blockToChar b) = some b := by
    intro r hr b hb
    obtain ⟨rr, hrr, rfl⟩ := List.mem_map.mp hr
    obtain ⟨cc, hcc, rfl⟩ := List.mem_map.mp hb
    have hmem : w.getBlock rr cc ∈ w.blocks :=
      getBlock_mem w hlen rr cc (List.mem_range.mp hrr) (List.mem_range.mp hcc)
    obtain ⟨h1, h2, h3⟩ := hcanon _ hmem
    exact blockFromChar_toChar_canonical _ h1 h2 h3
  have hrowsC : ((List.range w.height).map fun r =>
        (List.range w.width).map fun c => blockToChar (w.getBlock r c))
      = ((List.range w.height).map fun r =>
          (List.range w.width).map fun c => w.getBlock r c).map (List.map blockToChar) := by
    simp [List.map_map, Function.comp]
  have hflatten : ((List.range w.height).map fun r =>
      (List.range w.width).map fun c => w.getBlock r c).flatten = w.blocks := by
    simp only [World.getBlock, World.get]
    exact flatten_rows_eq w.blocks w.height w.width hlen
  have hparse : parseAllBlocks ((List.range w.height).map fun r =>
      (List.range w.width).map fun c => blockToChar (w.getBlock r c)) = .ok w.blocks := by
    rw [hrowsC, parseAllBlocks_map _ hcanon', hflatten]
  unfold worldFromStr
  rw [hdata, rustLines_lines _ _ hfirst hrows]
  dsimp only
  rw [hsplit2]
  dsimp only
  rw [parseNonZeroUsize_natDigits w.height hh hHmax]
  dsimp only
  rw [parseNonZeroUsize_natDigits w.width hw hWmax]
  dsimp only
  rw [if_neg (by omega : ¬w.height * w.width > USIZE_MAX)]
  rw [hparse]
  dsimp only
  unfold newFromBlocks
  rw [if_neg (by omega : ¬w.height * w.width > USIZE_MAX), if_pos hlen.symm]

/-- C2 witness: the amended round trip at a concrete valid 2×2 world whose
tiles are all canonical. -/
theorem world_roundtrip_amended_witness :
    worldFromStr (worldToString ⟨2, 2, [Block.Endpoint .Down, Block.Empty,
        Block.Endpoint .Up, Block.Cross]⟩)
      = ParseResult.ok ⟨2, 2, [Block.Endpoint .Down, Block.Empty,
        Block.Endpoint .Up, Block.Cross]⟩ :=
  world_roundtrip_amended _ (by decide) (by decide)
